import Mathlib

/-!
Shallow embedding of the record-normalization pipeline of `app.py`
(Notion dog-friendly restaurant map).

The program pulls rows from a Notion database, geocodes each row's free-text
address, deduplicates coincident coordinates by a fixed diagonal nudge, and
renders the resulting records as map markers plus an HTML table sorted by name.

Modelling decisions:
* Coordinates are embedded as exact rationals (`ℚ`); the nudge step
  `0.0005` and the example coordinates are exact in this arithmetic.
* A raw Notion row is a structure of `Option`-valued fields: `none` models a
  missing or malformed field whose access raises in Python (caught by the
  per-row `try`/`except`).
* The geocoder is an oracle `String → Option GeoLocation`; `none` models the
  geocoder returning no result.
* Side effects (`st.warning`, `st.error`, `time.sleep`) are reified as an
  `Event` list emitted in program order.
-/

/-- A coloured tag as stored in a Notion status / multi-select property
(`{'name': ..., 'color': ...}`). -/
structure Tag where
  name : String
  color : String
deriving DecidableEq, Repr

/-- A raw row of the Notion database, as consumed by `fetch_locations`.
Each field is the value reached by the corresponding dictionary path in
`app.py`; `none` means the path is missing or malformed, so that access
raises an exception in Python. -/
structure RawRow where
  rowId : String
  name : Option String
  address : Option String
  inaccurate : Option Bool
  status : Option Tag
  quelle : Option (List Tag)
  notes : Option (List String)
  mapsUrl : Option String
deriving DecidableEq, Repr

/-- The result of a successful geocoder lookup (`geopy` `Location`):
latitude, longitude and the raw display name string. -/
structure GeoLocation where
  latitude : ℚ
  longitude : ℚ
  display_name : String
deriving DecidableEq, Repr

/-- A `{'text': ..., 'color': ...}` value as built for `status` / `source`. -/
structure TagVal where
  text : String
  color : String
deriving DecidableEq, Repr

/-- One element of the list returned by `fetch_locations`. -/
structure LocationRecord where
  name : String
  address : String
  lat : ℚ
  lon : ℚ
  status : TagVal
  source : Option TagVal
  notes : Option String
  maps_url : String
deriving DecidableEq, Repr

/-- Observable side effects of the pipeline, in program order:
`st.warning` for a failed geocode, `st.warning` for a low-confidence address,
`st.error` for a caught row exception, and `time.sleep` (seconds). -/
inductive Event where
  | warnGeocode (address name : String)
  | warnLowConfidence (name locString : String)
  | errorRow (id : String)
  | sleep (seconds : ℚ)
deriving DecidableEq, Repr

/-- `get_color` of `app.py`: remap a handful of Notion colour names to
folium-friendly ones, leave everything else unchanged. -/
def get_color (color_string : String) : String :=
  if color_string = "yellow" then "orange"
  else if color_string = "pink" then "magenta"
  else if color_string = "blue" then "cadetblue"
  else if color_string = "red" then "darkred"
  else if color_string = "green" then "darkgreen"
  else color_string

/-- Split a character list at every occurrence of `c` (Python `str.split`
with a one-character separator, on the string's characters). -/
def splitListOn (c : Char) : List Char → List (List Char)
  | [] => [[]]
  | x :: xs =>
    if x = c then [] :: splitListOn c xs
    else
      match splitListOn c xs with
      | [] => [[x]]
      | g :: gs => (x :: g) :: gs

/-- Python `s.split(',')`. -/
def splitOnComma (s : String) : List String :=
  (splitListOn ',' s.toList).map String.mk

/-- Python `','.join(parts)`. -/
def joinWithComma : List String → String
  | [] => ""
  | [s] => s
  | s :: rest => s ++ "," ++ joinWithComma rest

/-- Python `','.join(s.split(',')[:-2])`: drop the last two comma-separated
components of `s` and re-join the rest. -/
def stripLastTwo (s : String) : String :=
  joinWithComma ((splitOnComma s).dropLast.dropLast)

/-- Python `any(char.isdigit() for char in s)`. -/
def hasDigit (s : String) : Bool :=
  s.toList.any Char.isDigit

/-- The `k`-th candidate coordinate of the nudge loop starting from
`(lat, lon)`: both components shifted by `k` steps of `0.0005`. -/
def cand (lat lon : ℚ) (k : ℕ) : ℚ × ℚ :=
  (lat + k * (0.0005 : ℚ), lon + k * (0.0005 : ℚ))

/-- Fuel-indexed version of the coordinate-nudge `while` loop of
`fetch_locations` (lines 94–96): while the candidate is in `seen`, add
`0.0005` to both components. -/
def nudgeAux : ℕ → List (ℚ × ℚ) → ℚ → ℚ → ℚ × ℚ
  | 0, _, lat, lon => (lat, lon)
  | fuel + 1, seen, lat, lon =>
    if (lat, lon) ∈ seen then
      nudgeAux fuel seen (lat + (0.0005 : ℚ)) (lon + (0.0005 : ℚ))
    else (lat, lon)

/-- The coordinate-nudge loop. Fuel `seen.length + 1` always suffices to
reach a free coordinate (proved below), so this computes the loop's result. -/
def nudge (seen : List (ℚ × ℚ)) (lat lon : ℚ) : ℚ × ℚ :=
  nudgeAux (seen.length + 1) seen lat lon

/-- Lines 60–68 of `app.py`: the low-confidence-address check. Drop the last
two comma-separated components of the geocoder's display name; if no digit
remains and the row is not flagged `Ungenaue Adresse`, emit a warning. -/
def mkWarns (name : String) (location : GeoLocation) (inaccurate_address : Bool) :
    List Event :=
  let location_string_wo_zip_code := stripLastTwo location.display_name
  if !hasDigit location_string_wo_zip_code && !inaccurate_address then
    [Event.warnLowConfidence name location_string_wo_zip_code]
  else []

/-- Lines 75–82 of `app.py`: the `source` tag is built from the first
element of the `Quelle` multi-select, if any. -/
def firstTag : List Tag → Option TagVal
  | [] => none
  | t :: _ => some ⟨t.name, get_color t.color⟩

/-- Lines 84–88 of `app.py`: `notes` is the first rich-text segment, if any. -/
def firstText : List String → Option String
  | [] => none
  | s :: _ => some s

/-- One iteration of the row loop of `fetch_locations` (lines 45–117),
given the geocoder oracle `g` and the current `seen_coords`.
Returns the events emitted for this row and the record appended, if any.
Field accesses whose Python counterpart raises produce an `errorRow` event
(the `except` branch); a failed geocode produces a `warnGeocode` event and
skips the row; the `sleep` event is reached only after a record is
appended, because both `continue` and the `except` branch jump past it. -/
def processRow (g : String → Option GeoLocation) (seen : List (ℚ × ℚ))
    (row : RawRow) : List Event × Option LocationRecord :=
  match row.name with
  | none => ([Event.errorRow row.rowId], none)
  | some name =>
    match row.address with
    | none => ([Event.errorRow row.rowId], none)
    | some address =>
      match g address with
      | none => ([Event.warnGeocode address name], none)
      | some location =>
        match row.inaccurate with
        | none => ([Event.errorRow row.rowId], none)
        | some inaccurate_address =>
          let warns := mkWarns name location inaccurate_address
          match row.status with
          | none => (warns ++ [Event.errorRow row.rowId], none)
          | some statusTag =>
            let status : TagVal := ⟨statusTag.name, get_color statusTag.color⟩
            match row.quelle with
            | none => (warns ++ [Event.errorRow row.rowId], none)
            | some source_content =>
              match row.notes with
              | none => (warns ++ [Event.errorRow row.rowId], none)
              | some notes_content =>
                match row.mapsUrl with
                | none => (warns ++ [Event.errorRow row.rowId], none)
                | some maps_url =>
                  let p := nudge seen location.latitude location.longitude
                  (warns ++ [Event.sleep (0.25 : ℚ)],
                   some ⟨name, address, p.1, p.2, status,
                         firstTag source_content, firstText notes_content, maps_url⟩)

/-- The row loop of `fetch_locations`: thread `seen_coords` through the rows,
collecting records and events. A produced record's coordinates are added to
`seen_coords`; a skipped row leaves it unchanged. -/
def fetchAux (g : String → Option GeoLocation) :
    List RawRow → List (ℚ × ℚ) → List LocationRecord × List Event
  | [], _ => ([], [])
  | row :: rows, seen =>
    let res := processRow g seen row
    match res.2 with
    | some rec =>
      let rest := fetchAux g rows ((rec.lat, rec.lon) :: seen)
      (rec :: rest.1, res.1 ++ rest.2)
    | none =>
      let rest := fetchAux g rows seen
      (rest.1, res.1 ++ rest.2)

/-- `fetch_locations` of `app.py`, with the Notion query result `rows` and
the geocoder `g` made explicit: normalize the rows into location records,
starting from an empty `seen_coords` set. -/
def fetch_locations (g : String → Option GeoLocation) (rows : List RawRow) :
    List LocationRecord × List Event :=
  fetchAux g rows []

/-- The seen-independent part of a record: every field except the nudged
coordinates. -/
def recKey (r : LocationRecord) :
    String × String × TagVal × Option TagVal × Option String × String :=
  (r.name, r.address, r.status, r.source, r.notes, r.maps_url)

/-- One row of the summary table `DataFrame` (lines 199–211 of `app.py`). -/
structure TableRow where
  Name : String
  Address : String
  Status : String
  StatusColor : String
  Source : String
  SourceColor : String
  Notes : String
  GoogleMaps : String
deriving DecidableEq, Repr

/-- The `table_data` list built from the location records (lines 199–211). -/
def table_data (locs : List LocationRecord) : List TableRow :=
  locs.map fun loc =>
    ⟨loc.name, loc.address, loc.status.text, loc.status.color,
     (loc.source.map TagVal.text).getD "", (loc.source.map TagVal.color).getD "",
     loc.notes.getD "", loc.maps_url⟩

/-- `df.sort_values(by='Name')` (line 214): sort the table rows ascending by
the `Name` column. -/
def sort_values_by_name (rows : List TableRow) : List TableRow :=
  List.insertionSort (fun a b => a.Name ≤ b.Name) rows

/-- Python `html.escape` on one character (with default `quote=True`). -/
def escapeChar (c : Char) : String :=
  if c = '&' then "&amp;"
  else if c = '<' then "&lt;"
  else if c = '>' then "&gt;"
  else if c = '"' then "&quot;"
  else if c = '\x27' then "&#x27;"
  else String.singleton c

/-- Python `html.escape` (default `quote=True`). -/
def htmlEscape (s : String) : String :=
  String.join (s.toList.map escapeChar)

/-- The opening `<table>` tag plus the header row of `make_html_table`. -/
def tableHeader : String :=
  "<table style=\x27width:100%; border-collapse:collapse;\x27>" ++
  "<tr>" ++
  "<th>📍 Name</th>" ++
  "<th>ℹ️ Status</th>" ++
  "<th>🗺️ Address</th>" ++
  "<th>💡 Source</th>" ++
  "<th>📝 Notes</th>" ++
  "<th>🔗 Google Maps</th>" ++
  "</tr>"

/-- The HTML fragment `make_html_table` appends for one table row. -/
def renderRow (row : TableRow) : String :=
  "<tr>" ++
  "<td>" ++ htmlEscape row.Name ++ "</td>" ++
  "<td style=\x27background-color:" ++ row.StatusColor ++ ";color:white\x27>" ++
    htmlEscape row.Status ++ "</td>" ++
  "<td>" ++ htmlEscape row.Address ++ "</td>" ++
  "<td style=\x27background-color:" ++ row.SourceColor ++ ";color:white\x27>" ++
    htmlEscape row.Source ++ "</td>" ++
  "<td>" ++ htmlEscape row.Notes ++ "</td>" ++
  (if row.GoogleMaps ≠ "" then
    "<td><a href=\x27" ++ row.GoogleMaps ++ "\x27 target=\x27_blank\x27>" ++
      row.Name ++ " Maps</a></td>"
   else "<td></td>") ++
  "</tr>"

/-- `make_html_table` of `app.py`: header then one `<tr>` per row, in the
order of the given rows, closed by `</table>`. -/
def make_html_table (rows : List TableRow) : String :=
  (rows.foldl (fun acc row => acc ++ renderRow row) tableHeader) ++ "</table>"

/-- The variant-B table as rendered by the page: `make_html_table` applied to
the `table_data` rows sorted by name (lines 213–217). -/
def variantB_table (locs : List LocationRecord) : String :=
  make_html_table (sort_values_by_name (table_data locs))

/-- The concatenation of the rendered `<tr>` fragments of a row list, in list
order; used to state what `make_html_table` produces. -/
def rowsHtml : List TableRow → String
  | [] => ""
  | r :: rs => renderRow r ++ rowsHtml rs

/-- A geocoder for the end-to-end example of the spec (§8): `addr1` and
`addr3` both resolve to raw coordinate `(50, 8)`, `addr2` (and anything
else) fails to geocode. -/
def exampleGeocode : String → Option GeoLocation := fun a =>
  if a = "addr1" then some ⟨50, 8, "Foo 1, Mainz, 55116, Germany"⟩
  else if a = "addr3" then some ⟨50, 8, "Bar 3, Mainz, 55116, Germany"⟩
  else none

/-- A fully populated raw row with the given id and address. -/
def exampleRow (i a : String) : RawRow :=
  { rowId := i, name := some ("Rest " ++ i), address := some a,
    inaccurate := some false, status := some ⟨"Open", "green"⟩,
    quelle := some [], notes := some [], mapsUrl := some "http://x" }

/-- The three input rows of the end-to-end example: row 2 fails geocoding,
rows 1 and 3 both resolve to `(50, 8)`. -/
def exampleRows : List RawRow :=
  [exampleRow "1" "addr1", exampleRow "2" "addr2", exampleRow "3" "addr3"]

/-- A raw row whose `Name` access raises (missing title), used as a concrete
failing row. -/
def badRow : RawRow :=
  { rowId := "r0", name := none, address := none, inaccurate := none,
    status := none, quelle := none, notes := none, mapsUrl := none }

/-- Sample location records for concrete table instances. -/
def sampleLocA : LocationRecord :=
  ⟨"Alpha", "A-Street 1", 1, 2, ⟨"Open", "darkgreen"⟩, none, none, "u"⟩

/-- A second sample location record, with a name sorting after `sampleLocA`. -/
def sampleLocB : LocationRecord :=
  ⟨"Beta", "B-Street 2", 3, 4, ⟨"Open", "darkgreen"⟩, none, none, "v"⟩

/-- A geocoder that never resolves any address. -/
def noGeocoder : String → Option GeoLocation := fun _ => none

/-- A raw row with name and address present, whose address will not
geocode under `noGeocoder`. -/
def badRow2 : RawRow :=
  { rowId := "r1", name := some "A", address := some "nowhere",
    inaccurate := some false, status := some ⟨"Open", "green"⟩,
    quelle := some [], notes := some [], mapsUrl := some "http://x" }

/-- A geocoder result whose display name, after dropping the last two
comma-separated components, contains no digit (no house number). -/
def fuzzyLoc : GeoLocation := ⟨50, 8, "Marktplatz, Mainz, 55116, Germany"⟩

/-- A geocoder resolving every address to `fuzzyLoc`. -/
def fuzzyGeocoder : String → Option GeoLocation := fun _ => some fuzzyLoc

/-- A well-formed raw row, not flagged `Ungenaue Adresse`, whose address
resolves to the house-number-less `fuzzyLoc`. -/
def fuzzyRow : RawRow :=
  { rowId := "r2", name := some "B", address := some "Marktplatz",
    inaccurate := some false, status := some ⟨"Open", "green"⟩,
    quelle := some [], notes := some [], mapsUrl := some "http://x" }

/-! ## Properties of the coordinate-nudge loop -/

/-- Unfolding lemma for one iteration of the nudge loop. -/
theorem nudgeAux_succ (fuel : ℕ) (seen : List (ℚ × ℚ)) (lat lon : ℚ) :
    nudgeAux (fuel + 1) seen lat lon =
      if (lat, lon) ∈ seen then
        nudgeAux fuel seen (lat + (0.0005 : ℚ)) (lon + (0.0005 : ℚ))
      else (lat, lon) := rfl

/-- The zeroth candidate is the starting coordinate. -/
theorem cand_zero (lat lon : ℚ) : cand lat lon 0 = (lat, lon) := by
  simp [cand]

/-- Shifting the start by one step renumbers the candidates. -/
theorem cand_shift (lat lon : ℚ) (j : ℕ) :
    cand (lat + (0.0005 : ℚ)) (lon + (0.0005 : ℚ)) j = cand lat lon (j + 1) := by
  simp only [cand, Prod.mk.injEq]
  constructor <;> push_cast <;> ring

/-- Distinct indices give distinct candidates (the step is nonzero). -/
theorem cand_injective (lat lon : ℚ) {i j : ℕ} (h : cand lat lon i = cand lat lon j) :
    i = j := by
  simp only [cand, Prod.mk.injEq] at h
  obtain ⟨h1, -⟩ := h
  have hs : (0.0005 : ℚ) ≠ 0 := by norm_num
  have h2 : (i : ℚ) * 0.0005 = (j : ℚ) * 0.0005 := by linarith
  exact_mod_cast mul_right_cancel₀ hs h2

/-- Pigeonhole: among the first `seen.length + 1` candidates, at least one is
not in `seen`. -/
theorem exists_cand_notMem (seen : List (ℚ × ℚ)) (lat lon : ℚ) :
    ∃ m, m ≤ seen.length ∧ cand lat lon m ∉ seen := by
  by_contra h
  push_neg at h
  have hmaps : ∀ i ∈ Finset.range (seen.length + 1), cand lat lon i ∈ seen.toFinset := by
    intro i hi
    rw [List.mem_toFinset]
    exact h i (Nat.lt_succ_iff.mp (Finset.mem_range.mp hi))
  have hinj : Set.InjOn (cand lat lon) ↑(Finset.range (seen.length + 1)) := by
    intro i _ j _ hij
    exact cand_injective lat lon hij
  have hcard := Finset.card_le_card_of_injOn (cand lat lon) hmaps hinj
  rw [Finset.card_range] at hcard
  have hle := seen.toFinset_card_le
  omega

/-- With enough fuel, the nudge loop stops at the first free candidate. -/
theorem nudgeAux_eq_cand (fuel : ℕ) :
    ∀ (seen : List (ℚ × ℚ)) (lat lon : ℚ) (k : ℕ),
      (∀ j, j < k → cand lat lon j ∈ seen) → cand lat lon k ∉ seen → k < fuel →
      nudgeAux fuel seen lat lon = cand lat lon k := by
  induction fuel with
  | zero =>
    intro _ _ _ k _ _ hfuel
    omega
  | succ n ih =>
    intro seen lat lon k hlt hfree hfuel
    rw [nudgeAux_succ]
    by_cases hmem : (lat, lon) ∈ seen
    · rw [if_pos hmem]
      cases k with
      | zero => exact absurd ((cand_zero lat lon).symm ▸ hmem) hfree
      | succ k' =>
        rw [← cand_shift lat lon k']
        refine ih seen (lat + (0.0005 : ℚ)) (lon + (0.0005 : ℚ)) k'
          (fun j hj => ?_) ?_ (by omega)
        · rw [cand_shift]
          exact hlt (j + 1) (by omega)
        · rw [cand_shift]
          exact hfree
    · rw [if_neg hmem]
      cases k with
      | zero => exact (cand_zero lat lon).symm
      | succ k' => exact absurd ((cand_zero lat lon) ▸ hlt 0 (Nat.succ_pos k')) hmem

/-- Characterization of `nudge`: it returns the first candidate not in
`seen`, and that candidate's index is at most `seen.length`. -/
theorem nudge_spec (seen : List (ℚ × ℚ)) (lat lon : ℚ) :
    ∃ k, k ≤ seen.length ∧ nudge seen lat lon = cand lat lon k ∧
      (∀ j, j < k → cand lat lon j ∈ seen) ∧ cand lat lon k ∉ seen := by
  obtain ⟨m, hm, hfree⟩ := exists_cand_notMem seen lat lon
  have hex : ∃ k, cand lat lon k ∉ seen := ⟨m, hfree⟩
  have hk_le : Nat.find hex ≤ seen.length := le_trans (Nat.find_min' hex hfree) hm
  have hbelow : ∀ j, j < Nat.find hex → cand lat lon j ∈ seen := by
    intro j hj
    exact not_not.mp (Nat.find_min hex hj)
  refine ⟨Nat.find hex, hk_le, ?_, hbelow, Nat.find_spec hex⟩
  exact nudgeAux_eq_cand (seen.length + 1) seen lat lon (Nat.find hex) hbelow
    (Nat.find_spec hex) (by omega)

/-- The nudge loop always lands outside `seen`. -/
theorem nudge_notMem (seen : List (ℚ × ℚ)) (lat lon : ℚ) :
    nudge seen lat lon ∉ seen := by
  obtain ⟨k, -, heq, -, hfree⟩ := nudge_spec seen lat lon
  rw [heq]
  exact hfree

/-- Any fuel beyond `seen.length` computes the same result as `nudge`:
the loop terminates within `seen.length + 1` iterations. -/
theorem nudgeAux_fuel_sufficient (seen : List (ℚ × ℚ)) (lat lon : ℚ) (fuel : ℕ)
    (h : seen.length < fuel) : nudgeAux fuel seen lat lon = nudge seen lat lon := by
  obtain ⟨k, hk, heq, hlt, hfree⟩ := nudge_spec seen lat lon
  rw [heq]
  exact nudgeAux_eq_cand fuel seen lat lon k hlt hfree (by omega)

/-! ## Per-row processing: structural characterization -/

/-- Every row either fails (no record, a fixed event list without a `sleep`,
independent of `seen_coords`) or succeeds (all fields present, geocode
resolves, and the emitted record and events have the closed form below). -/
theorem processRow_shape (g : String → Option GeoLocation) (row : RawRow) :
    (∃ E, Event.sleep (0.25 : ℚ) ∉ E ∧ ∀ seen, processRow g seen row = (E, none)) ∨
    (∃ nm ad loc b stag qs ns mu,
      row.name = some nm ∧ row.address = some ad ∧ g ad = some loc ∧
      row.inaccurate = some b ∧ row.status = some stag ∧ row.quelle = some qs ∧
      row.notes = some ns ∧ row.mapsUrl = some mu ∧
      ∀ seen, processRow g seen row =
        (mkWarns nm loc b ++ [Event.sleep (0.25 : ℚ)],
         some ⟨nm, ad, (nudge seen loc.latitude loc.longitude).1,
               (nudge seen loc.latitude loc.longitude).2,
               ⟨stag.name, get_color stag.color⟩, firstTag qs, firstText ns, mu⟩)) := by
  rcases row with ⟨i, n, a, ia, st, q, nt, mp⟩
  cases n with
  | none => exact Or.inl ⟨[Event.errorRow i], by simp, fun seen => rfl⟩
  | some nm =>
    cases a with
    | none => exact Or.inl ⟨[Event.errorRow i], by simp, fun seen => rfl⟩
    | some ad =>
      cases hg : g ad with
      | none =>
        refine Or.inl ⟨[Event.warnGeocode ad nm], by simp, fun seen => ?_⟩
        simp [processRow, hg]
      | some loc =>
        cases ia with
        | none =>
          refine Or.inl ⟨[Event.errorRow i], by simp, fun seen => ?_⟩
          simp [processRow, hg]
        | some b =>
          cases st with
          | none =>
            refine Or.inl ⟨mkWarns nm loc b ++ [Event.errorRow i], by simp [mkWarns], fun seen => ?_⟩
            simp [processRow, hg]
          | some stag =>
            cases q with
            | none =>
              refine Or.inl ⟨mkWarns nm loc b ++ [Event.errorRow i], by simp [mkWarns], fun seen => ?_⟩
              simp [processRow, hg]
            | some qs =>
              cases nt with
              | none =>
                refine Or.inl ⟨mkWarns nm loc b ++ [Event.errorRow i], by simp [mkWarns], fun seen => ?_⟩
                simp [processRow, hg]
              | some ns =>
                cases mp with
                | none =>
                  refine Or.inl ⟨mkWarns nm loc b ++ [Event.errorRow i], by simp [mkWarns], fun seen => ?_⟩
                  simp [processRow, hg]
                | some mu =>
                  refine Or.inr ⟨nm, ad, loc, b, stag, qs, ns, mu,
                    rfl, rfl, hg, rfl, rfl, rfl, rfl, rfl, fun seen => ?_⟩
                  simp [processRow, hg]

/-- A record produced against `seen_coords` has coordinates outside it. -/
theorem processRow_coords_notMem (g : String → Option GeoLocation)
    (seen : List (ℚ × ℚ)) (row : RawRow) (rec : LocationRecord)
    (h : (processRow g seen row).2 = some rec) : (rec.lat, rec.lon) ∉ seen := by
  rcases processRow_shape g row with ⟨E, -, hall⟩ |
    ⟨nm, ad, loc, b, stag, qs, ns, mu, -, -, -, -, -, -, -, -, hall⟩
  · rw [hall seen] at h
    simp at h
  · rw [hall seen] at h
    simp only [Option.some.injEq] at h
    rw [← h]
    simpa using nudge_notMem seen loc.latitude loc.longitude

/-- The pipeline emits at most one record per input row. -/
theorem fetchAux_length (g : String → Option GeoLocation) (rows : List RawRow) :
    ∀ seen, (fetchAux g rows seen).1.length ≤ rows.length := by
  induction rows with
  | nil => intro seen; simp [fetchAux]
  | cons row rows ih =>
    intro seen
    cases hp : (processRow g seen row).2 with
    | none =>
      simp only [fetchAux, hp, List.length_cons]
      exact Nat.le_succ_of_le (ih seen)
    | some rec =>
      simp only [fetchAux, hp, List.length_cons]
      exact Nat.succ_le_succ (ih _)

/-- Invariant of the row loop: the emitted coordinates are pairwise distinct
and disjoint from the incoming `seen_coords`. -/
theorem fetchAux_coords_nodup (g : String → Option GeoLocation) (rows : List RawRow) :
    ∀ seen, ((fetchAux g rows seen).1.map fun r => (r.lat, r.lon)).Nodup ∧
      ∀ c ∈ (fetchAux g rows seen).1.map fun r => (r.lat, r.lon), c ∉ seen := by
  induction rows with
  | nil => intro seen; simp [fetchAux]
  | cons row rows ih =>
    intro seen
    cases hp : (processRow g seen row).2 with
    | none =>
      simpa only [fetchAux, hp] using ih seen
    | some rec =>
      have hnm : (rec.lat, rec.lon) ∉ seen := processRow_coords_notMem g seen row rec hp
      obtain ⟨ihnd, ihnm⟩ := ih ((rec.lat, rec.lon) :: seen)
      constructor
      · simp only [fetchAux, hp, List.map_cons, List.nodup_cons]
        exact ⟨fun hmem => (ihnm _ hmem) (List.mem_cons_self _ _), ihnd⟩
      · intro c hc
        simp only [fetchAux, hp, List.map_cons, List.mem_cons] at hc
        rcases hc with rfl | hc
        · exact hnm
        · exact fun hcs => (ihnm c hc) (List.mem_cons_of_mem _ hcs)

/-- The seen-independent fields of the emitted records are the surviving
rows' fields, in input order. -/
theorem fetchAux_map_recKey (g : String → Option GeoLocation) (rows : List RawRow) :
    ∀ seen, (fetchAux g rows seen).1.map recKey
      = rows.filterMap fun row => ((processRow g [] row).2).map recKey := by
  induction rows with
  | nil => intro seen; simp [fetchAux]
  | cons row rows ih =>
    intro seen
    rcases processRow_shape g row with ⟨E, -, hall⟩ |
      ⟨nm, ad, loc, b, stag, qs, ns, mu, -, -, -, -, -, -, -, -, hall⟩
    · simp [fetchAux, hall seen, hall [], ih seen, List.filterMap_cons]
    · simp [fetchAux, hall seen, hall [], ih, List.filterMap_cons, recKey]

/-- A row that never emits a record can be removed from the input without
changing the emitted records. -/
theorem fetchAux_skip (g : String → Option GeoLocation) (row : RawRow)
    (hnone : ∀ seen, (processRow g seen row).2 = none) (pre post : List RawRow) :
    ∀ seen, (fetchAux g (pre ++ row :: post) seen).1 = (fetchAux g (pre ++ post) seen).1 := by
  induction pre with
  | nil =>
    intro seen
    simp [fetchAux, hnone seen]
  | cons p pre ih =>
    intro seen
    cases hp : (processRow g seen p).2 with
    | none => simp [List.cons_append, fetchAux, hp, ih seen]
    | some rec => simp [List.cons_append, fetchAux, hp, ih _]

/-! ## The end-to-end example: three rows, one duplicate coordinate -/

/-- Nudging `(50, 8)` against a batch that already reserved `(50, 8)` takes
exactly one diagonal step. -/
theorem nudge_example :
    nudge [((50 : ℚ), (8 : ℚ))] 50 8 = ((50 : ℚ) + 0.0005, (8 : ℚ) + 0.0005) := by
  have hmem : ((50 : ℚ), (8 : ℚ)) ∈ [((50 : ℚ), (8 : ℚ))] := List.mem_singleton.mpr rfl
  have hnot : ((50 : ℚ) + 0.0005, (8 : ℚ) + 0.0005) ∉ [((50 : ℚ), (8 : ℚ))] := by
    norm_num
  show nudgeAux (1 + 1) [((50 : ℚ), (8 : ℚ))] 50 8 = _
  rw [nudgeAux_succ, if_pos hmem]
  show nudgeAux (0 + 1) _ _ _ = _
  rw [nudgeAux_succ, if_neg hnot]

/-- The records of the example run, by name and coordinates: row 2 drops out
and row 3 is nudged one step past row 1. -/
theorem exampleFetch_names_coords :
    ((fetch_locations exampleGeocode exampleRows).1.map fun r => (r.name, r.lat, r.lon))
      = [("Rest 1", 50, 8), ("Rest 3", (50.0005 : ℚ), (8.0005 : ℚ))] := by
  have h1 : processRow exampleGeocode [] (exampleRow "1" "addr1")
      = ([Event.sleep (0.25 : ℚ)],
         some ⟨"Rest 1", "addr1", 50, 8, ⟨"Open", "darkgreen"⟩, none, none, "http://x"⟩) := rfl
  have h2 : processRow exampleGeocode [((50 : ℚ), (8 : ℚ))] (exampleRow "2" "addr2")
      = ([Event.warnGeocode "addr2" "Rest 2"], none) := rfl
  have h3 : processRow exampleGeocode [((50 : ℚ), (8 : ℚ))] (exampleRow "3" "addr3")
      = ([Event.sleep (0.25 : ℚ)],
         some ⟨"Rest 3", "addr3", (nudge [((50 : ℚ), (8 : ℚ))] 50 8).1,
               (nudge [((50 : ℚ), (8 : ℚ))] 50 8).2,
               ⟨"Open", "darkgreen"⟩, none, none, "http://x"⟩) := rfl
  have hfetch : (fetch_locations exampleGeocode exampleRows).1
      = [⟨"Rest 1", "addr1", 50, 8, ⟨"Open", "darkgreen"⟩, none, none, "http://x"⟩,
         ⟨"Rest 3", "addr3", (nudge [((50 : ℚ), (8 : ℚ))] 50 8).1,
          (nudge [((50 : ℚ), (8 : ℚ))] 50 8).2,
          ⟨"Open", "darkgreen"⟩, none, none, "http://x"⟩] := by
    simp only [fetch_locations, exampleRows, fetchAux, h1, h2, h3]
  rw [hfetch]
  simp only [List.map_cons, List.map_nil, nudge_example]
  norm_num

/-! ## Claims -/

/-- C1: for every geocoder and input row sequence, `fetch_locations` returns
no more records than there are input rows, and the `(lat, lon)` coordinate
pairs of the returned records are pairwise distinct. -/
theorem claim_C1 (g : String → Option GeoLocation) (rows : List RawRow) :
    (fetch_locations g rows).1.length ≤ rows.length ∧
    ((fetch_locations g rows).1.map fun r => (r.lat, r.lon)).Nodup :=
  ⟨fetchAux_length g rows [], (fetchAux_coords_nodup g rows []).1⟩

/-- C10: the coordinate-nudge loop always terminates. The result of `nudge`
is never in the reserved set, it is one of the diagonal candidates with index
at most `seen.length`, and any fuel beyond `seen.length` computes the same
result, so the `while` loop stops within `seen.length + 1` iterations. -/
theorem claim_C10 (seen : List (ℚ × ℚ)) (lat lon : ℚ) :
    nudge seen lat lon ∉ seen ∧
    (∃ k, k ≤ seen.length ∧ nudge seen lat lon = cand lat lon k) ∧
    ∀ fuel, seen.length < fuel → nudgeAux fuel seen lat lon = nudge seen lat lon := by
  obtain ⟨k, hk, heq, hlt, hfree⟩ := nudge_spec seen lat lon
  exact ⟨heq ▸ hfree, ⟨k, hk, heq⟩,
    fun fuel hfuel => nudgeAux_fuel_sufficient seen lat lon fuel hfuel⟩

/-- C10 witness: on the empty reserved set, fuel 1 suffices and the result
is free. -/
theorem claim_C10_witness :
    nudge [] (0 : ℚ) 0 ∉ ([] : List (ℚ × ℚ)) ∧
    nudgeAux 1 [] (0 : ℚ) 0 = nudge [] (0 : ℚ) 0 :=
  ⟨(claim_C10 [] 0 0).1, (claim_C10 [] 0 0).2.2 1 (by decide)⟩

/-- C3: if a batch reserves a superset `seen₂` of the coordinates `seen₁`
that an earlier identical raw coordinate was nudged against, including that
earlier record's final coordinate, then the later nudge lands an exact
positive number of `(0.0005, 0.0005)` steps beyond the earlier one, and is
the first diagonal candidate not already reserved. In particular, in the
three-row example where row 2 fails geocoding and rows 1 and 3 both resolve
to `(50, 8)`, the output has exactly 2 records and row 3's record has
coordinates `(50.0005, 8.0005)`. -/
theorem claim_C3 (seen₁ seen₂ : List (ℚ × ℚ)) (lat lon : ℚ)
    (hsub : ∀ c ∈ seen₁, c ∈ seen₂) (hmem : nudge seen₁ lat lon ∈ seen₂) :
    (∃ m : ℕ, 1 ≤ m ∧
      (nudge seen₂ lat lon).1 = (nudge seen₁ lat lon).1 + (m : ℚ) * 0.0005 ∧
      (nudge seen₂ lat lon).2 = (nudge seen₁ lat lon).2 + (m : ℚ) * 0.0005) ∧
    (∃ k : ℕ, nudge seen₂ lat lon = cand lat lon k ∧
      (∀ j, j < k → cand lat lon j ∈ seen₂) ∧ cand lat lon k ∉ seen₂) ∧
    exampleGeocode "addr2" = none ∧
    (exampleGeocode "addr1").map (fun l => (l.latitude, l.longitude)) = some (50, 8) ∧
    (exampleGeocode "addr3").map (fun l => (l.latitude, l.longitude)) = some (50, 8) ∧
    (fetch_locations exampleGeocode exampleRows).1.length = 2 ∧
    ((fetch_locations exampleGeocode exampleRows).1.map fun r => (r.name, r.lat, r.lon))
      = [("Rest 1", 50, 8), ("Rest 3", (50.0005 : ℚ), (8.0005 : ℚ))] := by
  obtain ⟨k₁, hk₁len, hk₁eq, hk₁lt, hk₁free⟩ := nudge_spec seen₁ lat lon
  obtain ⟨k₂, hk₂len, hk₂eq, hk₂lt, hk₂free⟩ := nudge_spec seen₂ lat lon
  have hgt : k₁ < k₂ := by
    by_contra hle
    push_neg at hle
    rcases Nat.lt_or_ge k₂ k₁ with h | h
    · exact hk₂free (hsub _ (hk₁lt k₂ h))
    · have hkk : k₂ = k₁ := le_antisymm hle h
      rw [hk₁eq, ← hkk] at hmem
      exact hk₂free hmem
  have hlen : (fetch_locations exampleGeocode exampleRows).1.length = 2 := by
    have hmap := congrArg List.length exampleFetch_names_coords
    simpa using hmap
  refine ⟨⟨k₂ - k₁, by omega, ?_, ?_⟩, ⟨k₂, hk₂eq, hk₂lt, hk₂free⟩,
    rfl, rfl, rfl, hlen, exampleFetch_names_coords⟩
  · rw [hk₁eq, hk₂eq]
    simp only [cand]
    push_cast [Nat.cast_sub (le_of_lt hgt)]
    ring
  · rw [hk₁eq, hk₂eq]
    simp only [cand]
    push_cast [Nat.cast_sub (le_of_lt hgt)]
    ring

/-- C3 witness: the general clause instantiated at the example's own data,
`seen₁ = []`, `seen₂ = [(50, 8)]`, starting coordinate `(50, 8)`. -/
theorem claim_C3_witness :
    (∃ m : ℕ, 1 ≤ m ∧
      (nudge [((50 : ℚ), (8 : ℚ))] 50 8).1 = (nudge [] (50 : ℚ) (8 : ℚ)).1 + (m : ℚ) * 0.0005 ∧
      (nudge [((50 : ℚ), (8 : ℚ))] 50 8).2 = (nudge [] (50 : ℚ) (8 : ℚ)).2 + (m : ℚ) * 0.0005) ∧
    (∃ k : ℕ, nudge [((50 : ℚ), (8 : ℚ))] 50 8 = cand 50 8 k ∧
      (∀ j, j < k → cand 50 8 j ∈ [((50 : ℚ), (8 : ℚ))]) ∧
      cand 50 8 k ∉ [((50 : ℚ), (8 : ℚ))]) ∧
    exampleGeocode "addr2" = none ∧
    (exampleGeocode "addr1").map (fun l => (l.latitude, l.longitude)) = some (50, 8) ∧
    (exampleGeocode "addr3").map (fun l => (l.latitude, l.longitude)) = some (50, 8) ∧
    (fetch_locations exampleGeocode exampleRows).1.length = 2 ∧
    ((fetch_locations exampleGeocode exampleRows).1.map fun r => (r.name, r.lat, r.lon))
      = [("Rest 1", 50, 8), ("Rest 3", (50.0005 : ℚ), (8.0005 : ℚ))] :=
  claim_C3 [] [((50 : ℚ), (8 : ℚ))] 50 8 (by simp)
    (List.mem_singleton.mpr rfl)

/-- A successful row's event list never contains a caught-exception event. -/
theorem errorRow_notMem_success (e nm : String) (loc : GeoLocation) (b : Bool) :
    Event.errorRow e ∉ mkWarns nm loc b ++ [Event.sleep (0.25 : ℚ)] := by
  simp only [mkWarns, List.mem_append]
  split <;> simp

/-- C2: a row on which processing raises (modelled: an `errorRow` event is
reported for it) is skipped — it emits no record, whatever the state of
`seen_coords` — and removing it from the input leaves the records of all the
other rows unchanged, so processing continues with the remaining rows.
The embedding is a total function, so no input makes the pipeline itself
fail. -/
theorem claim_C2 (g : String → Option GeoLocation) (pre post : List RawRow)
    (row : RawRow) (h : Event.errorRow row.rowId ∈ (processRow g [] row).1) :
    (∀ seen, (processRow g seen row).2 = none) ∧
    (fetch_locations g (pre ++ row :: post)).1 = (fetch_locations g (pre ++ post)).1 := by
  rcases processRow_shape g row with ⟨E, -, hall⟩ |
    ⟨nm, ad, loc, b, stag, qs, ns, mu, -, -, -, -, -, -, -, -, hall⟩
  · have hnone : ∀ seen, (processRow g seen row).2 = none := fun seen => by
      rw [hall seen]
    exact ⟨hnone, fetchAux_skip g row hnone pre post []⟩
  · rw [hall []] at h
    exact absurd h (errorRow_notMem_success row.rowId nm loc b)

/-- C2 witness: a row whose `Name` access raises is reported, dropped, and
does not disturb the record of a following well-formed row. -/
theorem claim_C2_witness :
    (∀ seen, (processRow exampleGeocode seen badRow).2 = none) ∧
    (fetch_locations exampleGeocode ([] ++ badRow :: [exampleRow "1" "addr1"])).1
      = (fetch_locations exampleGeocode ([] ++ [exampleRow "1" "addr1"])).1 :=
  claim_C2 exampleGeocode [] [exampleRow "1" "addr1"] badRow (by decide)

/-- C6 counterexample: a row that reaches the geocoding step (its name and
address are extracted and the address is passed to the geocoder, which
returns no result) executes no `time.sleep` at all: the `continue` on the
failed-geocode branch jumps past the sleep on line 111. -/
theorem claim_C6_counterexample :
    badRow2.name = some "A" ∧ badRow2.address = some "nowhere" ∧
    (processRow noGeocoder [] badRow2).1 = [Event.warnGeocode "nowhere" "A"] ∧
    Event.sleep (0.25 : ℚ) ∉ (processRow noGeocoder [] badRow2).1 :=
  ⟨rfl, rfl, rfl, by decide⟩

/-- C6 (amended): the fixed 250 ms pause is executed for a row if and only
if that row produces a record; rows whose geocoding yields no result, and
rows on which an exception is raised, skip the pause. -/
theorem claim_C6 (g : String → Option GeoLocation) (seen : List (ℚ × ℚ)) (row : RawRow) :
    Event.sleep (0.25 : ℚ) ∈ (processRow g seen row).1 ↔
      ((processRow g seen row).2).isSome = true := by
  rcases processRow_shape g row with ⟨E, hsleep, hall⟩ |
    ⟨nm, ad, loc, b, stag, qs, ns, mu, -, -, -, -, -, -, -, -, hall⟩
  · rw [hall seen]
    simp [hsleep]
  · rw [hall seen]
    simp

/-- C7: the emitted records are exactly the surviving rows' records in input
order — projected to their seen-independent fields (everything but the
nudged coordinates), the output equals a `filterMap` over the input rows. -/
theorem claim_C7 (g : String → Option GeoLocation) (rows : List RawRow) :
    (fetch_locations g rows).1.map recKey
      = rows.filterMap fun row => ((processRow g [] row).2).map recKey :=
  fetchAux_map_recKey g rows []

/-- C4: `get_color` is a total remapping satisfying exactly the five listed
substitutions, and every other string is returned unchanged. -/
theorem claim_C4 :
    get_color "yellow" = "orange" ∧ get_color "pink" = "magenta" ∧
    get_color "blue" = "cadetblue" ∧ get_color "red" = "darkred" ∧
    get_color "green" = "darkgreen" ∧
    ∀ c : String, c ∉ ["yellow", "pink", "blue", "red", "green"] → get_color c = c := by
  refine ⟨rfl, rfl, rfl, rfl, rfl, ?_⟩
  intro c hc
  simp only [List.mem_cons, List.not_mem_nil, or_false, not_or] at hc
  obtain ⟨n1, n2, n3, n4, n5⟩ := hc
  simp [get_color, n1, n2, n3, n4, n5]

/-- C4 witness: `"teal"` is not one of the five remapped colours and is
returned unchanged. -/
theorem claim_C4_witness :
    ("teal" : String) ∉ ["yellow", "pink", "blue", "red", "green"] ∧
    get_color "teal" = "teal" :=
  ⟨by decide, claim_C4.2.2.2.2.2 "teal" (by decide)⟩

/-- C9: `get_color` is idempotent — every output of the remapping table is a
fixed point of the remapping. -/
theorem claim_C9 (c : String) : get_color (get_color c) = get_color c := by
  unfold get_color
  split_ifs <;> simp_all

/-- C5: for a row whose geocoded display string, stripped of its last two
comma-separated components, contains no digit, the low-confidence warning is
emitted iff the `Ungenaue Adresse` flag is false, and flipping the flag
never changes whether the row produces a record. -/
theorem claim_C5 (g : String → Option GeoLocation) (seen : List (ℚ × ℚ))
    (row : RawRow) (nm ad : String) (loc : GeoLocation) (b : Bool)
    (h1 : row.name = some nm) (h2 : row.address = some ad) (h3 : g ad = some loc)
    (h4 : row.inaccurate = some b)
    (h5 : hasDigit (stripLastTwo loc.display_name) = false) :
    (Event.warnLowConfidence nm (stripLastTwo loc.display_name)
        ∈ (processRow g seen row).1 ↔ b = false) ∧
    (((processRow g seen row).2).isSome
      = ((processRow g seen { row with inaccurate := some (!b) }).2).isSome) := by
  obtain ⟨i, n, a, ia, st, q, nt, mp⟩ := row
  dsimp only at h1 h2 h4
  subst h1
  subst h2
  subst h4
  have hw : ∀ b' : Bool, mkWarns nm loc b'
      = if b' then [] else [Event.warnLowConfidence nm (stripLastTwo loc.display_name)] := by
    intro b'
    cases b' <;> simp [mkWarns, h5]
  cases st <;> cases q <;> cases nt <;> cases mp <;>
    refine ⟨?_, ?_⟩ <;> simp [processRow, h3, hw]

/-- C5 witness: a concrete house-number-less address with the flag false
produces the warning, and flipping the flag does not change record
emission. -/
theorem claim_C5_witness :
    hasDigit (stripLastTwo fuzzyLoc.display_name) = false ∧
    ((Event.warnLowConfidence "B" (stripLastTwo fuzzyLoc.display_name)
        ∈ (processRow fuzzyGeocoder [] fuzzyRow).1 ↔ false = false) ∧
     (((processRow fuzzyGeocoder [] fuzzyRow).2).isSome
       = ((processRow fuzzyGeocoder [] { fuzzyRow with inaccurate := some (!false) }).2).isSome)) :=
  ⟨rfl, claim_C5 fuzzyGeocoder [] fuzzyRow "B" "Marktplatz" fuzzyLoc false
    rfl rfl rfl rfl rfl⟩

/-- Folding the row renderer over a list appends the rendered rows in list
order. -/
theorem foldl_renderRow (rows : List TableRow) :
    ∀ acc : String, rows.foldl (fun a r => a ++ renderRow r) acc = acc ++ rowsHtml rows := by
  induction rows with
  | nil =>
    intro acc
    exact (String.append_empty acc).symm
  | cons r rows ih =>
    intro acc
    rw [List.foldl_cons, ih, rowsHtml, String.append_assoc]

/-- C8: the variant-B table rows are sorted ascending by the `Name` column:
the sorted rows' names are in order, the sorted rows are a permutation of
the table rows, the name column of the result is the same for any
permutation of the input, and the rendered HTML lists the rows in exactly
that sorted order. -/
theorem claim_C8 (locs : List LocationRecord) :
    List.Sorted (fun a b : String => a ≤ b)
      ((sort_values_by_name (table_data locs)).map TableRow.Name) ∧
    (sort_values_by_name (table_data locs)).Perm (table_data locs) ∧
    (∀ locs' : List LocationRecord, (table_data locs').Perm (table_data locs) →
      (sort_values_by_name (table_data locs')).map TableRow.Name
        = (sort_values_by_name (table_data locs)).map TableRow.Name) ∧
    variantB_table locs
      = tableHeader ++ rowsHtml (sort_values_by_name (table_data locs)) ++ "</table>" := by
  have ht : IsTotal TableRow (fun a b => a.Name ≤ b.Name) :=
    ⟨fun a b => le_total a.Name b.Name⟩
  have htr : IsTrans TableRow (fun a b => a.Name ≤ b.Name) :=
    ⟨fun a b c hab hbc => le_trans hab hbc⟩
  have hsorted : ∀ l : List TableRow,
      List.Sorted (fun a b : String => a ≤ b)
        ((List.insertionSort (fun a b => a.Name ≤ b.Name) l).map TableRow.Name) := by
    intro l
    exact List.pairwise_map.mpr
      (@List.sorted_insertionSort TableRow (fun a b => a.Name ≤ b.Name) _ ht htr l)
  have hperm : ∀ l : List TableRow,
      (List.insertionSort (fun a b => a.Name ≤ b.Name) l).Perm l :=
    fun l => List.perm_insertionSort (fun a b => a.Name ≤ b.Name) l
  refine ⟨hsorted (table_data locs), hperm (table_data locs), ?_, ?_⟩
  · intro locs' hp
    refine List.eq_of_perm_of_sorted ?_ (hsorted (table_data locs')) (hsorted (table_data locs))
    exact ((hperm (table_data locs')).map TableRow.Name).trans
      ((hp.map TableRow.Name).trans ((hperm (table_data locs)).map TableRow.Name).symm)
  · show make_html_table (sort_values_by_name (table_data locs)) = _
    rw [make_html_table, foldl_renderRow]

/-- C8 witness: two records given in reverse name order; the table's name
column is the same as for the in-order input. -/
theorem claim_C8_witness :
    (table_data [sampleLocB, sampleLocA]).Perm (table_data [sampleLocA, sampleLocB]) ∧
    (sort_values_by_name (table_data [sampleLocB, sampleLocA])).map TableRow.Name
      = (sort_values_by_name (table_data [sampleLocA, sampleLocB])).map TableRow.Name :=
  ⟨by decide, (claim_C8 [sampleLocA, sampleLocB]).2.2.1 [sampleLocB, sampleLocA] (by decide)⟩
